import Mathlib

/-!
Shallow embedding of the f2fs garbage-collector core (fs/f2fs/gc.c).

Machine integers are modelled as Nat with explicit reductions modulo
2^32 (unsigned int, block_t) or 2^64 (unsigned long long) at the points
where the C code can wrap.  Bitmaps over segments are Nat-indexed
Boolean functions.  External collaborators that gc.c calls but does not
define (get_valid_blocks, IS_CURSEC, page fetches, checkpoint pressure,
free-section accounting) are oracle fields of environment structures:
their values are arbitrary, only their call sites are fixed by gc.c.
-/

namespace F2fsGc

/-- u32 modulus, the value of UINT_MAX + 1. -/
def U32 : Nat := 4294967296

/-- UINT_MAX as used by get_cb_cost. -/
def UINT_MAX : Nat := U32 - 1

/-- u64 modulus, for unsigned long long arithmetic. -/
def U64 : Nat := 18446744073709551616

/-- Pointwise update of a Nat-indexed bitmap (set_bit / clear_bit). -/
def updBit (m : Nat → Bool) (i : Nat) (v : Bool) : Nat → Bool :=
  fun j => if j = i then v else m j

/-- Linear scan helper for find_next_bit: examine k positions from j. -/
def findNextBitGo (m : Nat → Bool) : Nat → Nat → Nat
  | 0, j => j
  | k + 1, j => if m j then j else findNextBitGo m k (j + 1)

/-- find_next_bit(map, size, off): least set index in [off, size), else size. -/
def find_next_bit (m : Nat → Bool) (size off : Nat) : Nat :=
  if size ≤ off then size else findNextBitGo m (size - off) off

/-- GC invocation mode: background or foreground. -/
inductive GcType
  | BG
  | FG
deriving DecidableEq

/-- Victim-selection cost policy (p.gc_mode). -/
inductive GcMode
  | CB
  | GREEDY
deriving DecidableEq

/-- Allocation mode of the selection (p.alloc_mode). -/
inductive AllocMode
  | LFS
  | SSR
deriving DecidableEq

/-- Status values GC_NONE / GC_OK / GC_NEXT / GC_DONE / GC_BLOCKED / GC_ERROR. -/
inductive GcRes
  | NONE
  | OK
  | NEXT
  | DONE
  | BLOCKED
  | ERROR
deriving DecidableEq

/-- Summary-block footer type (SUM_TYPE_NODE / SUM_TYPE_DATA). -/
inductive SumType
  | NODE
  | DATA
deriving DecidableEq

/-- The type argument of get_victim: NO_CHECK_TYPE, or an SSR type t. -/
inductive VType
  | noCheck
  | ssrOf (t : Nat)
deriving DecidableEq

/-- Per-segment SIT entry fields used by gc.c. -/
structure SegEntry where
  mtime : Nat
  ckptValidBlocks : Nat
  curValidMap : Nat → Bool

/-- Static filesystem geometry plus the external collaborators gc.c reads.
validBlocks models get_valid_blocks(sbi, segno, log_ofs_unit); isCursec
models IS_CURSEC on a section number; the dirty segmaps are owned by
dirty_seglist_info but are never written by the code under study. -/
structure Sbi where
  totalSegs : Nat
  logBlocksPerSeg : Nat
  logSegsPerSec : Nat
  maxVictimSearch : Nat
  nidsPerBlock : Nat
  addrsPerBlock : Nat
  addrsPerInode : Nat
  segEntry : Nat → SegEntry
  validBlocks : Nat → Nat → Nat
  isCursec : Nat → Bool
  dirtyDirty : Nat → Bool
  dirtyType : Nat → Nat → Bool

/-- segs_per_sec = 1 << log_segs_per_sec. -/
def Sbi.segsPerSec (sbi : Sbi) : Nat := 1 <<< sbi.logSegsPerSec

/-- blocks_per_seg = 1 << log_blocks_per_seg. -/
def Sbi.blocksPerSeg (sbi : Sbi) : Nat := 1 <<< sbi.logBlocksPerSeg

/-- GET_SECNO(sbi, segno). -/
def GET_SECNO (sbi : Sbi) (segno : Nat) : Nat := segno >>> sbi.logSegsPerSec

/-- The global min_mtime / max_mtime pair of sit_info. -/
structure SitMM where
  minMtime : Nat
  maxMtime : Nat
deriving DecidableEq

/-- Mutable GC-selector state: last_victim array, the two victim segmaps
and the sit min/max mtimes (updated inside get_cb_cost). -/
structure GcState where
  lastVictim : GcMode → Nat
  victimBG : Nat → Bool
  victimFG : Nat → Bool
  sit : SitMM

/-- victim_segmap indexed by gc type. -/
def GcState.victimMap (st : GcState) : GcType → Nat → Bool
  | GcType.BG => st.victimBG
  | GcType.FG => st.victimFG

/-- Write last_victim[mo] := v. -/
def setLastVictim (st : GcState) (mo : GcMode) (v : Nat) : GcState :=
  { st with lastVictim := fun m => if m = mo then v else st.lastVictim m }

/-- set_bit(i, victim_segmap[gt]). -/
def setVictimBit (st : GcState) (gt : GcType) (i : Nat) : GcState :=
  match gt with
  | GcType.BG => { st with victimBG := updBit st.victimBG i true }
  | GcType.FG => { st with victimFG := updBit st.victimFG i true }

/-- clear_bit(i, victim_segmap[BG]). -/
def clearVictimBG (st : GcState) (i : Nat) : GcState :=
  { st with victimBG := updBit st.victimBG i false }

/-- Victim-selection policy record filled by select_policy. -/
structure Policy where
  allocMode : AllocMode
  gcMode : GcMode
  dirtySegmap : Nat → Bool
  logOfsUnit : Nat
  offset : Nat

/-- select_gc_type: BG uses cost-benefit, FG uses greedy. -/
def select_gc_type (gt : GcType) : GcMode :=
  if gt = GcType.BG then GcMode.CB else GcMode.GREEDY

/-- select_policy from gc.c. -/
def select_policy (sbi : Sbi) (gt : GcType) (vt : VType) (st : GcState) : Policy :=
  match vt with
  | VType.ssrOf t =>
      { allocMode := AllocMode.SSR
        gcMode := GcMode.GREEDY
        dirtySegmap := sbi.dirtyType t
        logOfsUnit := 0
        offset := st.lastVictim GcMode.GREEDY }
  | VType.noCheck =>
      { allocMode := AllocMode.LFS
        gcMode := select_gc_type gt
        dirtySegmap := sbi.dirtyDirty
        logOfsUnit := sbi.logSegsPerSec
        offset := st.lastVictim (select_gc_type gt) }

/-- get_max_cost from gc.c. -/
def get_max_cost (sbi : Sbi) (p : Policy) : Nat :=
  match p.gcMode with
  | GcMode.GREEDY => 1 <<< (sbi.logBlocksPerSeg + p.logOfsUnit)
  | GcMode.CB => UINT_MAX

/-- Sum of the mtimes of the segs_per_sec segments starting at start. -/
def mtimeSum (sbi : Sbi) (start : Nat) : Nat :=
  ((List.range sbi.segsPerSec).map (fun i => (sbi.segEntry (start + i)).mtime)).sum

/-- get_cb_cost from gc.c: returns the widened (min_mtime, max_mtime) pair
and the cost.  The age variable is initialized to 0 and only assigned when
max_mtime differs from min_mtime after widening.  The mtime accumulator is
u64 and u is an unsigned char; the quotient feeding age fits the char for
any mtimes below 2^57, as the age theorem below makes precise. -/
def get_cb_cost (sbi : Sbi) (sit : SitMM) (segno : Nat) : SitMM × Nat :=
  let secno := GET_SECNO sbi segno
  let start := secno <<< sbi.logSegsPerSec
  let mtimeTot := mtimeSum sbi start % U64
  let vblocks0 := sbi.validBlocks segno sbi.logSegsPerSec
  let mtime := mtimeTot >>> sbi.logSegsPerSec
  let vblocks := vblocks0 >>> sbi.logSegsPerSec
  let u := (((vblocks * 100) % U32) >>> sbi.logBlocksPerSeg) % 256
  let mn := if mtime < sit.minMtime then mtime else sit.minMtime
  let mx := if sit.maxMtime < mtime then mtime else sit.maxMtime
  let age := if mx ≠ mn then 100 - ((100 * (mtime - mn)) % U64) / (mx - mn) else 0
  (⟨mn, mx⟩, UINT_MAX - ((100 * (100 - u) * age) / (100 + u)))

/-- get_gc_cost from gc.c: SSR uses ckpt_valid_blocks, LFS greedy uses the
section-granularity valid-block count, LFS cost-benefit uses get_cb_cost. -/
def get_gc_cost (sbi : Sbi) (sit : SitMM) (segno : Nat) (p : Policy) : SitMM × Nat :=
  match p.allocMode with
  | AllocMode.SSR => (sit, (sbi.segEntry segno).ckptValidBlocks)
  | AllocMode.LFS =>
      match p.gcMode with
      | GcMode.GREEDY => (sit, sbi.validBlocks segno sbi.logSegsPerSec)
      | GcMode.CB => get_cb_cost sbi sit segno

/-- check_bg_victims from gc.c: pop the first set bit of victim_segmap[BG],
clearing exactly that one bit; none when the map is empty. -/
def check_bg_victims (sbi : Sbi) (st : GcState) : Option (GcState × Nat) :=
  let segno := find_next_bit st.victimBG sbi.totalSegs 0
  if segno < sbi.totalSegs then some (clearVictimBG st segno, segno) else none

/-- One-step outcome of the victim scan loop. -/
inductive StepRes
  | cont (st : GcState) (offset : Nat) (mS : Option Nat) (mC : Nat) (ns : Nat)
  | stop (st : GcState) (mS : Option Nat)

/-- One iteration of the while(1) scan of get_victim_by_default.  cont is the
C continue (back to the top), stop is break or an early return. -/
def scanStep (sbi : Sbi) (gt : GcType) (p : Policy) (st : GcState) (offset : Nat)
    (mS : Option Nat) (mC ns : Nat) : StepRes :=
  let segno := find_next_bit p.dirtySegmap sbi.totalSegs offset
  if sbi.totalSegs ≤ segno then
    if st.lastVictim p.gcMode ≠ 0 then
      StepRes.cont (setLastVictim st p.gcMode 0) 0 mS mC ns
    else
      StepRes.stop st mS
  else
    let offset2 := ((segno >>> p.logOfsUnit) <<< p.logOfsUnit) + (1 <<< p.logOfsUnit)
    if st.victimFG segno = true then
      StepRes.cont st offset2 mS mC ns
    else if gt = GcType.BG ∧ st.victimBG segno = true then
      StepRes.cont st offset2 mS mC ns
    else if sbi.isCursec (GET_SECNO sbi segno) = true then
      StepRes.cont st offset2 mS mC ns
    else
      let sc := get_gc_cost sbi st.sit segno p
      let st2 := { st with sit := sc.1 }
      let m2 := if sc.2 < mC then (some segno, sc.2) else (mS, mC)
      if sc.2 = get_max_cost sbi p then
        StepRes.cont st2 offset2 m2.1 m2.2 ns
      else if sbi.maxVictimSearch ≤ ns then
        StepRes.stop (setLastVictim st2 p.gcMode segno) m2.1
      else
        StepRes.cont st2 offset2 m2.1 m2.2 (ns + 1)

/-- Fuel-indexed driver of the scan loop; none means the fuel ran out. -/
def scanLoop (sbi : Sbi) (gt : GcType) (p : Policy) :
    Nat → GcState → Nat → Option Nat → Nat → Nat → Option (GcState × Option Nat)
  | 0, _, _, _, _, _ => none
  | fuel + 1, st, offset, mS, mC, ns =>
      match scanStep sbi gt p st offset mS mC ns with
      | StepRes.stop st' m => some (st', m)
      | StepRes.cont st' o' mS' mC' ns' => scanLoop sbi gt p fuel st' o' mS' mC' ns'

/-- Set n victim bits starting at base (the for loop under got_it). -/
def setSectionBits (st : GcState) (gt : GcType) (base : Nat) : Nat → GcState
  | 0 => st
  | n + 1 => setVictimBit (setSectionBits st gt base n) gt (base + n)

/-- The got_it tail of get_victim_by_default: align the victim down to its
ofs unit and, in LFS mode, claim all 2^log_ofs_unit bits in
victim_segmap[gc_type]. -/
def got_it (p : Policy) (gt : GcType) (st : GcState) (mS : Option Nat) :
    GcState × Option Nat :=
  match mS with
  | none => (st, none)
  | some m =>
      let res := (m >>> p.logOfsUnit) <<< p.logOfsUnit
      if p.allocMode = AllocMode.LFS then
        (setSectionBits st gt res (1 <<< p.logOfsUnit), some res)
      else
        (st, some res)

/-- get_victim_by_default from gc.c.  some (st, some segno) is a successful
return 1 with *result = segno; some (st, none) is return 0; none means the
scan fuel ran out (the termination theorem shows 2*TOTAL_SEGS+3 suffices). -/
def get_victim_by_default (sbi : Sbi) (st : GcState) (gt : GcType) (vt : VType)
    (fuel : Nat) : Option (GcState × Option Nat) :=
  let p := select_policy sbi gt vt st
  match (if p.allocMode = AllocMode.LFS ∧ gt = GcType.FG then check_bg_victims sbi st
         else none) with
  | some pr => some (got_it p gt pr.1 (some pr.2))
  | none =>
      (scanLoop sbi gt p fuel st p.offset none (get_max_cost sbi p) 0).map
        (fun r => got_it p gt r.1 r.2)

/-- Spec-side utilization percent of a section: the section's valid blocks
averaged per segment, times 100, shifted by log_blocks_per_seg. -/
def cbU (sbi : Sbi) (segno : Nat) : Nat :=
  ((sbi.validBlocks segno sbi.logSegsPerSec >>> sbi.logSegsPerSec) * 100) >>>
    sbi.logBlocksPerSeg

/-- Spec-side mtime average of a section. -/
def cbMtimeAvg (sbi : Sbi) (segno : Nat) : Nat :=
  mtimeSum sbi (GET_SECNO sbi segno <<< sbi.logSegsPerSec) >>> sbi.logSegsPerSec

/-- min_mtime after the widening observation. -/
def cbMinAfter (sbi : Sbi) (sit : SitMM) (segno : Nat) : Nat :=
  min (cbMtimeAvg sbi segno) sit.minMtime

/-- max_mtime after the widening observation. -/
def cbMaxAfter (sbi : Sbi) (sit : SitMM) (segno : Nat) : Nat :=
  max (cbMtimeAvg sbi segno) sit.maxMtime

/-- Spec-side age factor, amended to match the code: 0 (not 100) when the
widened max_mtime equals the widened min_mtime. -/
def cbAge (sbi : Sbi) (sit : SitMM) (segno : Nat) : Nat :=
  if cbMaxAfter sbi sit segno = cbMinAfter sbi sit segno then 0
  else
    100 - (100 * (cbMtimeAvg sbi segno - cbMinAfter sbi sit segno)) /
      (cbMaxAfter sbi sit segno - cbMinAfter sbi sit segno)

/-- start_bidx_of_node from gc.c, with the exact C control flow: start_bidx
is initialized to 1, overwritten to 0 only for node offset 0, and the final
multiply-add runs only when it is nonzero.  All arithmetic is unsigned int,
rendered as Nat arithmetic modulo U32 (so the nofs = 3 case wraps exactly as
the C does). -/
def start_bidx_of_node (nids apb api nofs : Nat) : Nat :=
  let indirect_blks := 2 * nids + 4
  let res :=
    if nofs = 0 then ((0 : Nat), (0 : Nat))
    else if nofs ≤ 2 then (1, (nofs + U32 - 1) % U32)
    else if nofs ≤ indirect_blks then
      let dec := ((nofs + U32 - 4) % U32) / (nids + 1)
      (1, (nofs + 2 * U32 - 2 - dec) % U32)
    else
      let dec := ((nofs + 3 * U32 - indirect_blks - 3) % U32) / (nids + 1)
      (1, (nofs + 2 * U32 - 5 - dec) % U32)
  if res.1 ≠ 0 then (res.2 * apb + api) % U32 else res.1

/-- u32 subtraction a - b as Nat. -/
def sub32 (a b : Nat) : Nat := (a % U32 + (U32 - b % U32)) % U32

/-- u32 division (the divisor is already in range at every use site). -/
def div32u (a b : Nat) : Nat := (a % U32) / b

/-- The claim's piecewise description of start_bidx_of_node, written with
u32 arithmetic: 0 at nofs = 0, bidx = nofs-1 for nofs in [1,2],
bidx = nofs-2-(nofs-4)/(nids+1) for nofs in [3, 2*nids+4], and
bidx = nofs-5-(nofs-(2*nids+4)-3)/(nids+1) beyond, with the result
bidx * addrs_per_block + addrs_per_inode for nofs different from 0. -/
def start_bidx_spec (nids apb api nofs : Nat) : Nat :=
  if nofs = 0 then 0
  else
    let bidx :=
      if nofs ≤ 2 then sub32 nofs 1
      else if nofs ≤ 2 * nids + 4 then
        sub32 (sub32 nofs 2) (div32u (sub32 nofs 4) (nids + 1))
      else
        sub32 (sub32 nofs 5) (div32u (sub32 (sub32 nofs (2 * nids + 4)) 3) (nids + 1))
    (bidx * apb + api) % U32

/-- find_gc_inode from gc.c: linear search of the pin list by inode number. -/
def find_gc_inode (ino : Nat) (il : List Nat) : Option Nat :=
  il.find? (fun i => i == ino)

/-- add_gc_inode from gc.c: if the inode is already on the pin list the extra
reference is dropped and the list is unchanged, otherwise append at the tail. -/
def add_gc_inode (ino : Nat) (il : List Nat) : List Nat :=
  if ino ∈ il then il else il ++ [ino]

/-- put_gc_inode from gc.c: release every entry once and delete it; returns
the released inodes in order together with the (empty) surviving list. -/
def put_gc_inode (il : List Nat) : List Nat × List Nat := (il, [])

/-- check_valid_map from gc.c: reads the cur_valid_map bit under sentry_lock
and reports GC_OK or GC_NEXT. -/
def check_valid_map (sbi : Sbi) (segno off : Nat) : GcRes :=
  if (sbi.segEntry segno).curValidMap off then GcRes.OK else GcRes.NEXT

/-- Oracles consumed during the evacuation of one segment: checkpoint
pressure per inner tick, summary-entry fields, node-page fetch success,
check_dnode outcomes per (phase, offset), and inode / data-page fetch
success in the data phases. -/
structure EvacEnv where
  shouldCp : Nat → Bool
  sumNid : Nat → Nat
  sumOfs : Nat → Nat
  nodePageOk : Nat → Bool
  checkDnodeRes : Nat → Nat → Option (Nat × Nat)
  igetOk : Nat → Bool
  findDataOk : Nat → Nat → Bool
  getLockOk : Nat → Nat → Bool

/-- check_dnode from gc.c: every failure (page fetch, version mismatch,
address mismatch) is GC_NEXT; success is GC_OK with (ino, nofs). -/
def check_dnode (env : EvacEnv) (phase off : Nat) : GcRes × Option (Nat × Nat) :=
  match env.checkDnodeRes phase off with
  | some di => (GcRes.OK, some di)
  | none => (GcRes.NEXT, none)

/-- One pass of gc_node_segment over the blocks_per_seg summary entries.
some r is an early return (checkpoint pressure, or the guarded GC_ERROR
branch), none means the pass ran to completion. -/
def gcNodePass (sbi : Sbi) (env : EvacEnv) (segno : Nat) (initialPh : Bool)
    (base : Nat) : Nat → Nat → Option GcRes
  | _, 0 => none
  | off, k + 1 =>
    if env.shouldCp (base + off) = true then some GcRes.BLOCKED
    else
      let err := check_valid_map sbi segno off
      if err = GcRes.ERROR then some GcRes.ERROR
      else if err = GcRes.NEXT then gcNodePass sbi env segno initialPh base (off + 1) k
      else if initialPh then gcNodePass sbi env segno initialPh base (off + 1) k
      else if env.nodePageOk (env.sumNid off) = false then
        gcNodePass sbi env segno initialPh base (off + 1) k
      else gcNodePass sbi env segno initialPh base (off + 1) k

/-- gc_node_segment from gc.c: readahead pass, then dirty-and-write pass. -/
def gc_node_segment (sbi : Sbi) (env : EvacEnv) (segno : Nat) (_gt : GcType) : GcRes :=
  match gcNodePass sbi env segno true 0 0 sbi.blocksPerSeg with
  | some r => r
  | none =>
      match gcNodePass sbi env segno false sbi.blocksPerSeg 0 sbi.blocksPerSeg with
      | some r => r
      | none => GcRes.DONE

/-- One phase of gc_data_segment over the blocks_per_seg summary entries,
threading the inode pin list.  some r in the first component is an early
goto stop with that status. -/
def gcDataPass (sbi : Sbi) (env : EvacEnv) (segno : Nat) (phase : Nat) :
    Nat → Nat → List Nat → Option GcRes × List Nat
  | _, 0, il => (none, il)
  | off, k + 1, il =>
    if env.shouldCp (phase * sbi.blocksPerSeg + off) = true then (some GcRes.BLOCKED, il)
    else
      let err := check_valid_map sbi segno off
      if err = GcRes.ERROR then (some GcRes.ERROR, il)
      else if err = GcRes.NEXT then gcDataPass sbi env segno phase (off + 1) k il
      else if phase = 0 then gcDataPass sbi env segno phase (off + 1) k il
      else
        let cd := check_dnode env phase off
        if cd.1 = GcRes.ERROR then (some GcRes.ERROR, il)
        else
          match cd.2 with
          | none => gcDataPass sbi env segno phase (off + 1) k il
          | some di =>
            if phase = 1 then gcDataPass sbi env segno phase (off + 1) k il
            else
              let bidx := start_bidx_of_node sbi.nidsPerBlock sbi.addrsPerBlock
                sbi.addrsPerInode di.2
              if phase = 2 then
                if env.igetOk di.1 = false then gcDataPass sbi env segno phase (off + 1) k il
                else if env.findDataOk di.1 (bidx + env.sumOfs off) = false then
                  gcDataPass sbi env segno phase (off + 1) k il
                else gcDataPass sbi env segno phase (off + 1) k (add_gc_inode di.1 il)
              else
                match find_gc_inode di.1 il with
                | some _ =>
                  if env.getLockOk di.1 (bidx + env.sumOfs off) = false then
                    gcDataPass sbi env segno phase (off + 1) k il
                  else gcDataPass sbi env segno phase (off + 1) k il
                | none => gcDataPass sbi env segno phase (off + 1) k il

/-- The four phases of gc_data_segment. -/
def gcDataPhases (sbi : Sbi) (env : EvacEnv) (segno : Nat) :
    Nat → Nat → List Nat → GcRes × List Nat
  | _, 0, il => (GcRes.DONE, il)
  | phase, pl + 1, il =>
      match gcDataPass sbi env segno phase 0 sbi.blocksPerSeg il with
      | (some r, il') => (r, il')
      | (none, il') =>
          if phase + 1 < 4 then gcDataPhases sbi env segno (phase + 1) pl il'
          else (GcRes.DONE, il')

/-- gc_data_segment from gc.c. -/
def gc_data_segment (sbi : Sbi) (env : EvacEnv) (segno : Nat) (_gt : GcType)
    (il : List Nat) : GcRes × List Nat :=
  gcDataPhases sbi env segno 0 4 il

/-- Oracles for one do_garbage_collect call: the summary-page fetch result
per segno (none models IS_ERR) and the evacuation oracles. -/
structure DgcEnv where
  sumPage : Nat → Option SumType
  evac : EvacEnv

/-- do_garbage_collect from gc.c: fetch the victim's summary page, dispatch
on its footer type. -/
def do_garbage_collect (sbi : Sbi) (denv : DgcEnv) (segno : Nat) (il : List Nat)
    (gt : GcType) : GcRes × List Nat :=
  match denv.sumPage segno with
  | none => (GcRes.ERROR, il)
  | some SumType.NODE => (gc_node_segment sbi denv.evac segno gt, il)
  | some SumType.DATA => gc_data_segment sbi denv.evac segno gt il

/-- Oracles for f2fs_gc: superblock activity and free-space accounting per
while-loop tick, and per-call evacuation environments. -/
structure FsEnv where
  active : Nat → Bool
  notEnough : Nat → Bool
  freeSections : Nat → Nat
  reservedSections : Nat
  dgc : Nat → DgcEnv

/-- Result of the inner for loop over the segments of one section. -/
structure SegsOut where
  status : GcRes
  il : List Nat
  nfree : Nat
  c : Nat

/-- The for (i = 0; i < segs_per_sec; i++) loop of f2fs_gc: evacuate each
segment; stop at the first non-DONE status, counting one freed segment per
DONE. -/
def gcSegsLoop (sbi : Sbi) (env : FsEnv) (segno : Nat) (gt : GcType) :
    Nat → Nat → Nat → List Nat → GcRes → SegsOut
  | c, _, 0, il, cur => ⟨cur, il, 0, c⟩
  | c, i, k + 1, il, _ =>
      let r := do_garbage_collect sbi (env.dgc c) (segno + i) il gt
      if r.1 = GcRes.DONE then
        let so := gcSegsLoop sbi env segno gt (c + 1) (i + 1) k r.2 r.1
        ⟨so.status, so.il, so.nfree + 1, so.c⟩
      else ⟨r.1, r.2, 0, c + 1⟩

/-- Result of the while loop of f2fs_gc. -/
structure WhileOut where
  status : GcRes
  gcType : GcType
  gst : GcState
  il : List Nat
  nfree : Nat
  t : Nat
  c : Nat

/-- One-iteration outcome of the while loop: break / goto stop with a
result, loop again with updated locals, or victim-selector fuel exhaustion
(which the termination theorem rules out). -/
inductive WhileStep
  | stop (w : WhileOut)
  | next (t c : Nat) (gt : GcType) (gst : GcState) (il : List Nat) (status : GcRes)
      (nfree : Nat)
  | fuelOut

/-- One iteration of the while (s_flags & MS_ACTIVE) loop of f2fs_gc.
t counts loop ticks (indexing the activity / space oracles), c counts
do_garbage_collect calls.  The victim selector runs with its sufficient
fuel 2*TOTAL_SEGS+3. -/
def gcWhileStep (sbi : Sbi) (env : FsEnv) (nGC oldFree t c : Nat) (gt : GcType)
    (gst : GcState) (il : List Nat) (status : GcRes) (nfree : Nat) : WhileStep :=
  if env.active t = false then WhileStep.stop ⟨status, gt, gst, il, nfree, t + 1, c⟩
  else
    let gt2 := if env.notEnough t then GcType.FG else gt
    let curFree := env.freeSections t + nfree
    if (nGC : Int) < (curFree : Int) - (oldFree : Int) then
      WhileStep.stop ⟨status, gt2, gst, il, nfree, t + 1, c⟩
    else
      match get_victim_by_default sbi gst gt2 VType.noCheck (2 * sbi.totalSegs + 3) with
      | none => WhileStep.fuelOut
      | some (gst2, none) => WhileStep.stop ⟨status, gt2, gst2, il, nfree, t + 1, c⟩
      | some (gst2, some segno) =>
          let so := gcSegsLoop sbi env segno gt2 c 0 sbi.segsPerSec il status
          if so.status = GcRes.DONE then
            WhileStep.next (t + 1) so.c gt2 gst2 so.il so.status (nfree + so.nfree)
          else WhileStep.stop ⟨so.status, gt2, gst2, so.il, nfree + so.nfree, t + 1, so.c⟩

/-- Fuel-indexed driver of the while loop of f2fs_gc. -/
def gcWhile (sbi : Sbi) (env : FsEnv) (nGC oldFree : Nat) :
    Nat → Nat → Nat → GcType → GcState → List Nat → GcRes → Nat → Option WhileOut
  | 0, _, _, _, _, _, _, _ => none
  | fuel + 1, t, c, gt, gst, il, status, nfree =>
      match gcWhileStep sbi env nGC oldFree t c gt gst il status nfree with
      | WhileStep.stop w => some w
      | WhileStep.fuelOut => none
      | WhileStep.next t2 c2 gt2 gst2 il2 status2 nfree2 =>
          gcWhile sbi env nGC oldFree fuel t2 c2 gt2 gst2 il2 status2 nfree2

/-- Pin-list invariant of one while-loop iteration. -/
def whileStepInv (il : List Nat) : WhileStep → Prop
  | WhileStep.stop w => il.Nodup → w.il.Nodup
  | WhileStep.next _ _ _ _ il2 _ _ => il.Nodup → il2.Nodup
  | WhileStep.fuelOut => True

/-- One round of the gc_more retry loop of f2fs_gc: run the while loop and
decide whether to write a checkpoint and retry (any segment freed under
space pressure or a BLOCKED status) or to return. -/
inductive MoreStep
  | out (r : GcRes × GcState × List Nat)
  | again (t c : Nat) (gt : GcType) (gst : GcState) (il : List Nat)
  | fuelOut

/-- One gc_more round. -/
def gcMoreStep (sbi : Sbi) (env : FsEnv) (nGC wfuel t c : Nat) (gt : GcType)
    (gst : GcState) (il : List Nat) : MoreStep :=
  let oldFree := if env.notEnough t then env.reservedSections else env.freeSections t
  match gcWhile sbi env nGC oldFree wfuel (t + 1) c gt gst il GcRes.NONE 0 with
  | none => MoreStep.fuelOut
  | some w =>
      if env.notEnough w.t = true ∨ w.status = GcRes.BLOCKED then
        if w.nfree ≠ 0 then MoreStep.again (w.t + 1) w.c w.gcType w.gst w.il
        else MoreStep.out (w.status, w.gst, w.il)
      else MoreStep.out (w.status, w.gst, w.il)

/-- Fuel-indexed driver of the gc_more retry loop. -/
def gcMore (sbi : Sbi) (env : FsEnv) (nGC wfuel : Nat) :
    Nat → Nat → Nat → GcType → GcState → List Nat → Option (GcRes × GcState × List Nat)
  | 0, _, _, _, _, _ => none
  | gfuel + 1, t, c, gt, gst, il =>
      match gcMoreStep sbi env nGC wfuel t c gt gst il with
      | MoreStep.fuelOut => none
      | MoreStep.out r => some r
      | MoreStep.again t2 c2 gt2 gst2 il2 => gcMore sbi env nGC wfuel gfuel t2 c2 gt2 gst2 il2

/-- Pin-list invariant of one gc_more round. -/
def moreStepInv (il : List Nat) : MoreStep → Prop
  | MoreStep.out r => il.Nodup → r.2.2.Nodup
  | MoreStep.again _ _ _ _ il2 => il.Nodup → il2.Nodup
  | MoreStep.fuelOut => True

/-- Outcome of one f2fs_gc call: final status, selector state, the pin list
surviving put_gc_inode (checked empty by the BUG_ON), and the inodes
released by put_gc_inode. -/
structure GcOutcome where
  status : GcRes
  gst : GcState
  ilistFinal : List Nat
  released : List Nat

/-- f2fs_gc from gc.c: run the gc_more loop starting from an empty pin list
and BG mode, then release the pin list. -/
def f2fs_gc (sbi : Sbi) (env : FsEnv) (gst : GcState) (nGC gfuel wfuel : Nat) :
    Option GcOutcome :=
  (gcMore sbi env nGC wfuel gfuel 0 0 GcType.BG gst []).map
    (fun r =>
      let pg := put_gc_inode r.2.2
      ⟨r.1, r.2.1, pg.2, pg.1⟩)

/-- Termination measure of the victim scan: distance of the offset to the
end of the bitmap, plus a budget for the single rewind that a nonzero
last_victim allows. -/
def scanMeasure (sbi : Sbi) (p : Policy) (st : GcState) (offset : Nat) : Nat :=
  (if offset < sbi.totalSegs then sbi.totalSegs - offset else 0) + 1 +
    (if st.lastVictim p.gcMode ≠ 0 then sbi.totalSegs + 2 else 0)

/-- Invariant carried by one scan step: the victim segmaps are untouched and
the running minimum is either inherited or a scanned segno that lies below
TOTAL_SEGS and whose section is not a current section. -/
def stepInv (sbi : Sbi) (st : GcState) (mS : Option Nat) : StepRes → Prop
  | StepRes.cont st' _ mS' _ _ =>
      st'.victimBG = st.victimBG ∧ st'.victimFG = st.victimFG ∧
        (mS' = mS ∨ ∃ x, mS' = some x ∧ x < sbi.totalSegs ∧
          sbi.isCursec (GET_SECNO sbi x) = false)
  | StepRes.stop st' mS' =>
      st'.victimBG = st.victimBG ∧ st'.victimFG = st.victimFG ∧
        (mS' = mS ∨ ∃ x, mS' = some x ∧ x < sbi.totalSegs ∧
          sbi.isCursec (GET_SECNO sbi x) = false)

/-- Oracles of one background-worker tick after the sleep. -/
structure TickEnv where
  bgGcOn : Bool
  lockOk : Bool
  idle : Bool
  enoughInvalid : Bool
  gcResult : GcRes

/-- One tick of gc_thread_func after the timed wait: the BG_GC option gate,
the gc_mutex try-lock, the idleness back-off, the invalid-block-density
adjustment, and the post-GC wait_ms update.  inc and dec are the (external)
increase_sleep_time / decrease_sleep_time adjustments. -/
def gc_thread_tick (inc dec : Nat → Nat) (nogcT maxT : Nat) (env : TickEnv)
    (waitMs : Nat) : Nat :=
  if env.bgGcOn = false then waitMs
  else if env.lockOk = false then waitMs
  else if env.idle = false then inc waitMs
  else
    let w := if env.enoughInvalid then dec waitMs else inc waitMs
    if env.gcResult = GcRes.NONE then nogcT
    else if w = nogcT then maxT
    else w

/-! Concrete instances used by the executable witnesses and counterexamples. -/

/-- A segment entry with mtime 5. -/
def segEntryG : SegEntry := ⟨5, 0, fun _ => false⟩

/-- Small geometry: 4 segments, 2 per section, 4 blocks per segment; the
dirty map holds segment 2, every section valid-block count is 1. -/
def sbiG : Sbi where
  totalSegs := 4
  logBlocksPerSeg := 2
  logSegsPerSec := 1
  maxVictimSearch := 10
  nidsPerBlock := 2
  addrsPerBlock := 3
  addrsPerInode := 4
  segEntry := fun _ => segEntryG
  validBlocks := fun _ _ => 1
  isCursec := fun _ => false
  dirtyDirty := fun i => i == 2
  dirtyType := fun _ _ => false

/-- Clean selector state with sit mtime range [0, 10]. -/
def stG : GcState where
  lastVictim := fun _ => 0
  victimBG := fun _ => false
  victimFG := fun _ => false
  sit := ⟨0, 10⟩

/-- One-segment sections, no valid blocks: used for the age counterexample. -/
def sbiC1 : Sbi := { sbiG with logSegsPerSec := 0, validBlocks := fun _ _ => 0 }

/-- Every section is a current section. -/
def sbiC2 : Sbi := { sbiG with isCursec := fun _ => true }

/-- Selector state whose BG victim map already claims segment 2. -/
def stC2 : GcState := { stG with victimBG := fun i => i == 2 }

/-- One-segment sections with segment 1 dirty. -/
def sbiS0 : Sbi := { sbiG with logSegsPerSec := 0, dirtyDirty := fun i => i == 1 }

/-- FG greedy selection on the clean state. -/
def c3Out : GcState × Option Nat :=
  (get_victim_by_default sbiG stG GcType.FG VType.noCheck 11).getD (stG, none)

/-- FG selection popping the pre-claimed BG victim inside a current section. -/
def c2Out : GcState × Option Nat :=
  (get_victim_by_default sbiC2 stC2 GcType.FG VType.noCheck 11).getD (stC2, none)

/-- BG cost-benefit selection on the clean state (claims section {2, 3}). -/
def c5OutB : GcState × Option Nat :=
  (get_victim_by_default sbiG stG GcType.BG VType.noCheck 11).getD (stG, none)

/-- Subsequent FG selection consuming the BG victim through the fast path. -/
def c5OutF : GcState × Option Nat :=
  (get_victim_by_default sbiG c5OutB.1 GcType.FG VType.noCheck 11).getD (stG, none)

/-- BG selection with one-segment sections. -/
def c5wOutB : GcState × Option Nat :=
  (get_victim_by_default sbiS0 stG GcType.BG VType.noCheck 11).getD (stG, none)

/-- FG selection consuming that victim with one-segment sections. -/
def c5wOutF : GcState × Option Nat :=
  (get_victim_by_default sbiS0 c5wOutB.1 GcType.FG VType.noCheck 11).getD (stG, none)

/-- Trivial evacuation oracles. -/
def evacEnvW : EvacEnv :=
  ⟨fun _ => false, fun _ => 0, fun _ => 0, fun _ => true, fun _ _ => none,
    fun _ => true, fun _ _ => true, fun _ _ => true⟩

/-- Summary-page fetch always fails. -/
def dgcEnvW : DgcEnv := ⟨fun _ => none, evacEnvW⟩

/-- Inactive filesystem: the while loop exits on its first tick. -/
def fsEnvW : FsEnv := ⟨fun _ => false, fun _ => false, fun _ => 0, 0, fun _ => dgcEnvW⟩

/-- The outcome of f2fs_gc on the inactive filesystem. -/
def c6Out : GcOutcome :=
  (f2fs_gc sbiG fsEnvW stG 1 1 1).getD ⟨GcRes.NONE, stG, [0], [0, 0]⟩

/-- A tick that reaches the GC call and sees GC_NONE. -/
def tickEnvW : TickEnv := ⟨true, true, true, false, GcRes.NONE⟩

/-! ## Lemmas and theorems -/

theorem findNextBitGo_ge (m : Nat → Bool) : ∀ k j, j ≤ findNextBitGo m k j := by
  intro k
  induction k with
  | zero => intro j; exact Nat.le_refl j
  | succ k ih =>
      intro j
      by_cases hm : m j
      · simp [findNextBitGo, hm]
      · simp only [findNextBitGo, hm, if_false, Bool.false_eq_true]
        exact Nat.le_trans (Nat.le_succ j) (ih (j + 1))

theorem findNextBitGo_le (m : Nat → Bool) : ∀ k j, findNextBitGo m k j ≤ j + k := by
  intro k
  induction k with
  | zero => intro j; exact Nat.le_refl j
  | succ k ih =>
      intro j
      by_cases hm : m j
      · simp [findNextBitGo, hm]
      · simp only [findNextBitGo, hm, if_false, Bool.false_eq_true]
        have := ih (j + 1); omega

theorem findNextBitGo_set (m : Nat → Bool) :
    ∀ k j, findNextBitGo m k j < j + k → m (findNextBitGo m k j) = true := by
  intro k
  induction k with
  | zero => intro j h; simp only [findNextBitGo] at h; omega
  | succ k ih =>
      intro j h
      by_cases hm : m j
      · simp [findNextBitGo, hm]
      · simp only [findNextBitGo, hm, if_false, Bool.false_eq_true] at h ⊢
        exact ih (j + 1) (by omega)

theorem findNextBitGo_min (m : Nat → Bool) :
    ∀ k j i, j ≤ i → i < findNextBitGo m k j → m i = false := by
  intro k
  induction k with
  | zero =>
      intro j i hji hlt
      simp only [findNextBitGo] at hlt
      omega
  | succ k ih =>
      intro j i hji hlt
      by_cases hm : m j
      · simp [findNextBitGo, hm] at hlt; omega
      · simp only [findNextBitGo, hm, if_false, Bool.false_eq_true] at hlt
        rcases Nat.eq_or_lt_of_le hji with h | h
        · subst h; simpa using hm
        · exact ih (j + 1) i h hlt

theorem find_next_bit_lt (m : Nat → Bool) (size off : Nat)
    (h : find_next_bit m size off < size) :
    m (find_next_bit m size off) = true ∧ off ≤ find_next_bit m size off := by
  by_cases hos : size ≤ off
  · rw [find_next_bit, if_pos hos] at h
    omega
  · rw [find_next_bit, if_neg hos] at h ⊢
    exact ⟨findNextBitGo_set m (size - off) off (by omega),
      findNextBitGo_ge m (size - off) off⟩

theorem find_next_bit_le_of_set (m : Nat → Bool) (size off i : Nat)
    (hm : m i = true) (hoi : off ≤ i) (his : i < size) :
    find_next_bit m size off ≤ i := by
  by_cases hos : size ≤ off
  · rw [find_next_bit, if_pos hos]
    omega
  · rw [find_next_bit, if_neg hos]
    by_contra hcon
    have hfalse := findNextBitGo_min m (size - off) off i hoi (by omega)
    rw [hm] at hfalse
    exact Bool.true_eq_false.mp hfalse

theorem updBit_eq (m : Nat → Bool) (i : Nat) (v : Bool) (j : Nat) :
    updBit m i v j = if j = i then v else m j := rfl

/-- C4, confirmed: start_bidx_of_node computes exactly the claimed piecewise
function of the node offset (0 at offset 0; otherwise bidx * addrs_per_block
+ addrs_per_inode with bidx = nofs-1 for nofs in [1,2],
bidx = nofs-2-(nofs-4)/(nids+1) for nofs in [3, 2*nids+4], and
bidx = nofs-5-(nofs-(2*nids+4)-3)/(nids+1) beyond), all arithmetic being
the C's unsigned 32-bit arithmetic. -/
theorem start_bidx_of_node_matches_spec (nids apb api nofs : Nat)
    (hn : nofs < U32) (hi : 2 * nids + 4 < U32) :
    start_bidx_of_node nids apb api nofs = start_bidx_spec nids apb api nofs := by
  by_cases h0 : nofs = 0
  · simp [start_bidx_of_node, start_bidx_spec, h0]
  · by_cases h2 : nofs ≤ 2
    · have key : sub32 nofs 1 = (nofs + U32 - 1) % U32 := by
        simp only [sub32, U32] at *
        omega
      simp only [start_bidx_of_node, start_bidx_spec, h0, h2, if_true, if_false,
        ite_true, ite_false, ne_eq, one_ne_zero, not_false_eq_true, key]
    · by_cases h3 : nofs ≤ 2 * nids + 4
      · have hdec : div32u (sub32 nofs 4) (nids + 1) =
            ((nofs + U32 - 4) % U32) / (nids + 1) := by
          have hnum : sub32 nofs 4 % U32 = (nofs + U32 - 4) % U32 := by
            simp only [sub32, U32] at *
            omega
          simp only [div32u, hnum]
        have hdlt : ((nofs + U32 - 4) % U32) / (nids + 1) < U32 := by
          have ha := Nat.mod_lt (nofs + U32 - 4) (show 0 < U32 by decide)
          have hb := Nat.div_le_self ((nofs + U32 - 4) % U32) (nids + 1)
          omega
        have key : sub32 (sub32 nofs 2) ((nofs + U32 - 4) % U32 / (nids + 1)) =
            (nofs + 2 * U32 - 2 - (nofs + U32 - 4) % U32 / (nids + 1)) % U32 := by
          simp only [sub32]
          generalize (nofs + U32 - 4) % U32 / (nids + 1) = d at hdlt ⊢
          simp only [U32] at *
          omega
        simp only [start_bidx_of_node, start_bidx_spec, h0, h2, h3, if_true, if_false,
          ite_true, ite_false, ne_eq, one_ne_zero, not_false_eq_true, hdec, key]
      · have hdec : div32u (sub32 (sub32 nofs (2 * nids + 4)) 3) (nids + 1) =
            ((nofs + 3 * U32 - (2 * nids + 4) - 3) % U32) / (nids + 1) := by
          have hnum : sub32 (sub32 nofs (2 * nids + 4)) 3 % U32 =
              (nofs + 3 * U32 - (2 * nids + 4) - 3) % U32 := by
            simp only [sub32, U32] at *
            omega
          simp only [div32u, hnum]
        have hdlt : ((nofs + 3 * U32 - (2 * nids + 4) - 3) % U32) / (nids + 1) < U32 := by
          have ha := Nat.mod_lt (nofs + 3 * U32 - (2 * nids + 4) - 3) (show 0 < U32 by decide)
          have hb := Nat.div_le_self ((nofs + 3 * U32 - (2 * nids + 4) - 3) % U32) (nids + 1)
          omega
        have key : sub32 (sub32 nofs 5)
              ((nofs + 3 * U32 - (2 * nids + 4) - 3) % U32 / (nids + 1)) =
            (nofs + 2 * U32 - 5 -
              (nofs + 3 * U32 - (2 * nids + 4) - 3) % U32 / (nids + 1)) % U32 := by
          simp only [sub32]
          generalize (nofs + 3 * U32 - (2 * nids + 4) - 3) % U32 / (nids + 1) = d at hdlt ⊢
          simp only [U32] at *
          omega
        simp only [start_bidx_of_node, start_bidx_spec, h0, h2, h3, if_true, if_false,
          ite_true, ite_false, ne_eq, one_ne_zero, not_false_eq_true, hdec, key]

/-- Witness for C4 at the real f2fs constants (nids = addrs_per_block = 1018,
addrs_per_inode = 923) and a doubly-indirect node offset. -/
theorem start_bidx_of_node_matches_spec_witness :
    start_bidx_of_node 1018 1018 923 981 = start_bidx_spec 1018 1018 923 981 :=
  start_bidx_of_node_matches_spec 1018 1018 923 981 (by decide) (by decide)

/-- C8, confirmed: add_gc_inode is idempotent: an inode already on the pin
list leaves the list unchanged (the extra reference is dropped instead of
inserting a duplicate entry), so adding twice equals adding once. -/
theorem add_gc_inode_idempotent (ino : Nat) (il : List Nat) :
    (ino ∈ il → add_gc_inode ino il = il) ∧
      add_gc_inode ino (add_gc_inode ino il) = add_gc_inode ino il := by
  constructor
  · intro h
    simp [add_gc_inode, h]
  · by_cases h : ino ∈ il
    · simp [add_gc_inode, h]
    · have h2 : ino ∈ il ++ [ino] := by simp
      simp [add_gc_inode, h, h2]

/-- Witness for C8 on a concrete one-element pin list. -/
theorem add_gc_inode_idempotent_witness :
    add_gc_inode 1 [1] = [1] ∧
      add_gc_inode 1 (add_gc_inode 1 [1]) = add_gc_inode 1 [1] :=
  ⟨(add_gc_inode_idempotent 1 [1]).1 (by decide), (add_gc_inode_idempotent 1 [1]).2⟩

/-- C9, confirmed: in a worker tick that reaches the GC call, a GC_NONE
result sets wait_ms to the NOGC constant; a non-NONE result resets wait_ms
to the MAX constant exactly when the density-adjusted value was the NOGC
constant, and otherwise keeps the density-adjusted value. -/
theorem gc_thread_tick_wait_adjust (inc dec : Nat → Nat) (nogcT maxT : Nat)
    (env : TickEnv) (waitMs : Nat) (hbg : env.bgGcOn = true)
    (hl : env.lockOk = true) (hidle : env.idle = true) :
    (env.gcResult = GcRes.NONE →
      gc_thread_tick inc dec nogcT maxT env waitMs = nogcT) ∧
    (env.gcResult ≠ GcRes.NONE →
      (if env.enoughInvalid then dec waitMs else inc waitMs) = nogcT →
      gc_thread_tick inc dec nogcT maxT env waitMs = maxT) ∧
    (env.gcResult ≠ GcRes.NONE →
      (if env.enoughInvalid then dec waitMs else inc waitMs) ≠ nogcT →
      gc_thread_tick inc dec nogcT maxT env waitMs =
        (if env.enoughInvalid then dec waitMs else inc waitMs)) := by
  refine ⟨?_, ?_, ?_⟩
  · intro h1
    simp [gc_thread_tick, hbg, hl, hidle, h1]
  · intro h1 h2
    simp [gc_thread_tick, hbg, hl, hidle, h1, h2]
  · intro h1 h2
    simp [gc_thread_tick, hbg, hl, hidle, h1, h2]

/-- Witness for C9: a tick with BG_GC on, the lock free and the device idle,
whose GC call returns GC_NONE. -/
theorem gc_thread_tick_wait_adjust_witness :
    gc_thread_tick (fun w => w + 1) (fun w => w - 1) 50 100 tickEnvW 7 = 50 :=
  (gc_thread_tick_wait_adjust (fun w => w + 1) (fun w => w - 1) 50 100 tickEnvW 7
    rfl rfl rfl).1 rfl

theorem lt_align_add (m u : Nat) : m < ((m >>> u) <<< u) + (1 <<< u) := by
  simp only [Nat.shiftLeft_eq, Nat.shiftRight_eq_div_pow, one_mul]
  have hp : 0 < 2 ^ u := pow_pos (show 0 < 2 by norm_num) u
  have h1 : m / 2 ^ u * 2 ^ u + m % 2 ^ u = m := Nat.div_add_mod' m (2 ^ u)
  have h2 : m % 2 ^ u < 2 ^ u := Nat.mod_lt _ hp
  omega

theorem align_secno (m u : Nat) : ((m >>> u) <<< u) >>> u = m >>> u := by
  simp only [Nat.shiftLeft_eq, Nat.shiftRight_eq_div_pow]
  exact Nat.mul_div_cancel _ (pow_pos (show 0 < 2 by norm_num) u)

theorem align_mod (m u : Nat) : ((m >>> u) <<< u) % (1 <<< u) = 0 := by
  simp only [Nat.shiftLeft_eq, Nat.shiftRight_eq_div_pow, one_mul]
  exact Nat.mul_mod_left _ _

theorem setVictimBit_self (st : GcState) (gt : GcType) (i : Nat) :
    (setVictimBit st gt i).victimMap gt i = true := by
  cases gt <;> simp [setVictimBit, GcState.victimMap, updBit]

theorem setVictimBit_mono (st : GcState) (gt gt' : GcType) (i j : Nat)
    (h : st.victimMap gt' j = true) :
    (setVictimBit st gt i).victimMap gt' j = true := by
  cases gt <;> cases gt' <;>
    simp only [setVictimBit, GcState.victimMap, updBit] <;>
    try exact h
  all_goals split <;> first | rfl | exact h

theorem setSectionBits_sets (st : GcState) (gt : GcType) (b : Nat) :
    ∀ n i, i < n → (setSectionBits st gt b n).victimMap gt (b + i) = true := by
  intro n
  induction n with
  | zero => intro i h; omega
  | succ n ih =>
      intro i h
      rcases Nat.lt_or_ge i n with h' | h'
      · exact setVictimBit_mono _ _ _ _ _ (ih i h')
      · have hi : i = n := by omega
        subst hi
        exact setVictimBit_self _ _ _

theorem setSectionBits_FG_victimBG (st : GcState) (b : Nat) :
    ∀ n, (setSectionBits st GcType.FG b n).victimBG = st.victimBG := by
  intro n
  induction n with
  | zero => rfl
  | succ n ih => simp [setSectionBits, setVictimBit, ih]

theorem scanStep_inv (sbi : Sbi) (gt : GcType) (p : Policy) (st : GcState)
    (offset : Nat) (mS : Option Nat) (mC ns : Nat) :
    stepInv sbi st mS (scanStep sbi gt p st offset mS mC ns) := by
  simp only [scanStep]
  split
  · split
    · exact ⟨rfl, rfl, Or.inl rfl⟩
    · exact ⟨rfl, rfl, Or.inl rfl⟩
  · next hmiss =>
    split
    · exact ⟨rfl, rfl, Or.inl rfl⟩
    · split
      · exact ⟨rfl, rfl, Or.inl rfl⟩
      · split
        · exact ⟨rfl, rfl, Or.inl rfl⟩
        · next hcur =>
          have hseg : find_next_bit p.dirtySegmap sbi.totalSegs offset < sbi.totalSegs := by
            omega
          have hnc : sbi.isCursec
              (GET_SECNO sbi (find_next_bit p.dirtySegmap sbi.totalSegs offset)) = false := by
            simpa using hcur
          split
          · split
            · next hlt _ =>
              exact ⟨rfl, rfl, Or.inr ⟨_, rfl, hseg, hnc⟩⟩
            · exact ⟨rfl, rfl, Or.inl rfl⟩
          · split
            · split
              · next hlt _ =>
                exact ⟨rfl, rfl, Or.inr ⟨_, rfl, hseg, hnc⟩⟩
              · exact ⟨rfl, rfl, Or.inl rfl⟩
            · split
              · next hlt _ =>
                exact ⟨rfl, rfl, Or.inr ⟨_, rfl, hseg, hnc⟩⟩
              · exact ⟨rfl, rfl, Or.inl rfl⟩

theorem scanLoop_inv (sbi : Sbi) (gt : GcType) (p : Policy) :
    ∀ fuel st offset mS mC ns st' mo,
      scanLoop sbi gt p fuel st offset mS mC ns = some (st', mo) →
      (st'.victimBG = st.victimBG ∧ st'.victimFG = st.victimFG) ∧
        (mo = mS ∨ ∃ x, mo = some x ∧ x < sbi.totalSegs ∧
          sbi.isCursec (GET_SECNO sbi x) = false) := by
  intro fuel
  induction fuel with
  | zero =>
      intro st offset mS mC ns st' mo h
      simp [scanLoop] at h
  | succ fuel ih =>
      intro st offset mS mC ns st' mo h
      simp only [scanLoop] at h
      have hstep := scanStep_inv sbi gt p st offset mS mC ns
      cases hs : scanStep sbi gt p st offset mS mC ns with
      | stop st1 m1 =>
          rw [hs] at h hstep
          have h2 : some (st1, m1) = some (st', mo) := h
          cases h2
          exact ⟨⟨hstep.1, hstep.2.1⟩, hstep.2.2⟩
      | cont st1 o1 m1 c1 n1 =>
          rw [hs] at h hstep
          have h2 : scanLoop sbi gt p fuel st1 o1 m1 c1 n1 = some (st', mo) := h
          have hrec := ih st1 o1 m1 c1 n1 st' mo h2
          refine ⟨⟨hrec.1.1.trans hstep.1, hrec.1.2.trans hstep.2.1⟩, ?_⟩
          rcases hrec.2 with h1 | h1
          · rcases hstep.2.2 with h3 | h3
            · exact Or.inl (h1.trans h3)
            · exact Or.inr (h1 ▸ h3)
          · exact Or.inr h1

theorem setLastVictim_get (st : GcState) (mo : GcMode) (v : Nat) :
    (setLastVictim st mo v).lastVictim mo = v := by
  simp [setLastVictim]

theorem scanStep_cont_measure (sbi : Sbi) (gt : GcType) (p : Policy) (st : GcState)
    (offset : Nat) (mS : Option Nat) (mC ns : Nat) (st' : GcState) (o' : Nat)
    (mS' : Option Nat) (mC' ns' : Nat)
    (h : scanStep sbi gt p st offset mS mC ns = StepRes.cont st' o' mS' mC' ns') :
    scanMeasure sbi p st' o' < scanMeasure sbi p st offset := by
  simp only [scanStep] at h
  split at h
  · next hmiss =>
    split at h
    · next hlv =>
      cases h
      have hget : (setLastVictim st p.gcMode 0).lastVictim p.gcMode = 0 :=
        setLastVictim_get st p.gcMode 0
      simp only [scanMeasure, hget]
      rw [if_neg (show ¬((0 : Nat) ≠ 0) by simp), if_pos hlv]
      split <;> split <;> omega
    · cases h
  · next hmiss =>
    have hseg : find_next_bit p.dirtySegmap sbi.totalSegs offset < sbi.totalSegs := by
      omega
    have hoff := (find_next_bit_lt p.dirtySegmap sbi.totalSegs offset hseg).2
    have halign := lt_align_add (find_next_bit p.dirtySegmap sbi.totalSegs offset)
      p.logOfsUnit
    split at h
    · cases h
      simp only [scanMeasure]
      rw [if_pos (by omega : offset < sbi.totalSegs)]
      split <;> split <;> omega
    · split at h
      · cases h
        simp only [scanMeasure]
        rw [if_pos (by omega : offset < sbi.totalSegs)]
        split <;> split <;> omega
      · split at h
        · cases h
          simp only [scanMeasure]
          rw [if_pos (by omega : offset < sbi.totalSegs)]
          split <;> split <;> omega
        · split at h
          · cases h
            simp only [scanMeasure]
            rw [if_pos (by omega : offset < sbi.totalSegs)]
            split <;> split <;> omega
          · split at h
            · cases h
            · cases h
              simp only [scanMeasure]
              rw [if_pos (by omega : offset < sbi.totalSegs)]
              split <;> split <;> omega

theorem scanLoop_isSome (sbi : Sbi) (gt : GcType) (p : Policy) :
    ∀ fuel st offset mS mC ns, scanMeasure sbi p st offset ≤ fuel →
      (scanLoop sbi gt p fuel st offset mS mC ns).isSome = true := by
  intro fuel
  induction fuel with
  | zero =>
      intro st offset mS mC ns h
      simp only [scanMeasure] at h
      omega
  | succ fuel ih =>
      intro st offset mS mC ns h
      simp only [scanLoop]
      cases hs : scanStep sbi gt p st offset mS mC ns with
      | stop st1 m1 => rfl
      | cont st1 o1 m1 c1 n1 =>
          have hm := scanStep_cont_measure sbi gt p st offset mS mC ns st1 o1 m1 c1 n1 hs
          exact ih st1 o1 m1 c1 n1 (by omega)

/-- C7, confirmed: the victim scan loop of get_victim_by_default terminates
for every state: within a pass each iteration strictly advances the offset
to the next ofs-unit boundary, the no-bit-found rewind happens at most once
(it zeroes last_victim), and the MAX_VICTIM_SEARCH cutoff only shortens the
scan; fuel 2*TOTAL_SEGS+3 always suffices. -/
theorem get_victim_scan_terminates (sbi : Sbi) (st : GcState) (gt : GcType)
    (vt : VType) :
    (get_victim_by_default sbi st gt vt (2 * sbi.totalSegs + 3)).isSome = true := by
  simp only [get_victim_by_default]
  cases hf : (if (select_policy sbi gt vt st).allocMode = AllocMode.LFS ∧ gt = GcType.FG
      then check_bg_victims sbi st else none) with
  | some pr => rfl
  | none =>
      have hb : scanMeasure sbi (select_policy sbi gt vt st) st
          (select_policy sbi gt vt st).offset ≤ 2 * sbi.totalSegs + 3 := by
        simp only [scanMeasure]
        split <;> split <;> omega
      have hsome := scanLoop_isSome sbi gt (select_policy sbi gt vt st)
        (2 * sbi.totalSegs + 3) st (select_policy sbi gt vt st).offset none
        (get_max_cost sbi (select_policy sbi gt vt st)) 0 hb
      have hmap : ((scanLoop sbi gt (select_policy sbi gt vt st) (2 * sbi.totalSegs + 3)
          st (select_policy sbi gt vt st).offset none
          (get_max_cost sbi (select_policy sbi gt vt st)) 0).map
            (fun r => got_it (select_policy sbi gt vt st) gt r.1 r.2)).isSome = true := by
        rw [Option.isSome_map']
        exact hsome
      exact hmap

theorem got_it_lfs (p : Policy) (gt : GcType) (stX : GcState) (m : Nat)
    (st' : GcState) (r : Nat) (hA : p.allocMode = AllocMode.LFS)
    (h : got_it p gt stX (some m) = (st', some r)) :
    r = (m >>> p.logOfsUnit) <<< p.logOfsUnit ∧
      st' = setSectionBits stX gt ((m >>> p.logOfsUnit) <<< p.logOfsUnit)
        (1 <<< p.logOfsUnit) := by
  simp only [got_it, hA, ite_true, if_pos] at h
  rw [Prod.mk.injEq] at h
  obtain ⟨h1, h2⟩ := h
  cases h2
  exact ⟨rfl, h1.symm⟩

theorem check_bg_victims_spec (sbi : Sbi) (st : GcState) (st1 : GcState) (segno : Nat)
    (h : check_bg_victims sbi st = some (st1, segno)) :
    st.victimBG segno = true ∧ segno < sbi.totalSegs ∧ st1 = clearVictimBG st segno := by
  simp only [check_bg_victims] at h
  split at h
  · next hlt =>
    simp only [Option.some.injEq, Prod.mk.injEq] at h
    obtain ⟨h1, h2⟩ := h
    subst h2
    exact ⟨(find_next_bit_lt _ _ _ hlt).1, hlt, h1.symm⟩
  · cases h

/-- C2 counterexample: in a state whose victim_segmap[BG] already claims a
segment of a current section (every section is current here), the FG fast
path pops and returns that segment: get_victim succeeds with segno 2 even
though segment 2's section is a CURSEG section, because check_bg_victims
performs no IS_CURSEC check. -/
theorem get_victim_cursec_cex :
    c2Out.2 = some 2 ∧ sbiC2.isCursec (GET_SECNO sbiC2 2) = true :=
  ⟨rfl, rfl⟩

/-- C2 (amended): a successful get_victim_by_default never returns a segno
of a CURSEG-containing section provided no segno claimed in
victim_segmap[BG] lies in a CURSEG section; the scan path enforces the
IS_CURSEC skip unconditionally, while the FG fast path relies on that
precondition. -/
theorem get_victim_not_cursec (sbi : Sbi) (st : GcState) (gt : GcType) (vt : VType)
    (fuel : Nat) (st' : GcState) (r : Nat)
    (hbg : ∀ i, st.victimBG i = true → sbi.isCursec (GET_SECNO sbi i) = false)
    (h : get_victim_by_default sbi st gt vt fuel = some (st', some r)) :
    sbi.isCursec (GET_SECNO sbi r) = false := by
  simp only [get_victim_by_default] at h
  cases hf : (if (select_policy sbi gt vt st).allocMode = AllocMode.LFS ∧ gt = GcType.FG
      then check_bg_victims sbi st else none) with
  | some pr =>
      rw [hf] at h
      have hc : (select_policy sbi gt vt st).allocMode = AllocMode.LFS ∧ gt = GcType.FG := by
        by_contra hcon
        rw [if_neg hcon] at hf
        cases hf
      rw [if_pos hc] at hf
      have h2 : some (got_it (select_policy sbi gt vt st) gt pr.1 (some pr.2)) =
          some (st', some r) := h
      have h3 : got_it (select_policy sbi gt vt st) gt pr.1 (some pr.2) =
          (st', some r) := Option.some.inj h2
      obtain ⟨hr, _⟩ := got_it_lfs _ _ _ _ _ _ hc.1 h3
      obtain ⟨hset, _, _⟩ := check_bg_victims_spec sbi st pr.1 pr.2 (by
        rcases pr with ⟨a, b⟩; exact hf)
      have hcv := hbg pr.2 hset
      cases vt with
      | ssrOf t => simp [select_policy] at hc
      | noCheck =>
          have hu : (select_policy sbi gt VType.noCheck st).logOfsUnit =
              sbi.logSegsPerSec := rfl
          rw [hr, GET_SECNO, hu, align_secno]
          exact hcv
  | none =>
      rw [hf] at h
      rcases Option.map_eq_some'.mp h with ⟨a, ha, hgot⟩
      rcases a with ⟨st1, mo⟩
      cases mo with
      | none =>
          simp only [got_it, Prod.mk.injEq] at hgot
          cases hgot.2
      | some m =>
          have hinv := scanLoop_inv sbi gt (select_policy sbi gt vt st) fuel st
            (select_policy sbi gt vt st).offset none
            (get_max_cost sbi (select_policy sbi gt vt st)) 0 st1 (some m) ha
          rcases hinv.2 with hbad | ⟨x, hx, hxlt, hxnc⟩
          · cases hbad
          · cases hx
            cases vt with
            | noCheck =>
                have hA : (select_policy sbi gt VType.noCheck st).allocMode =
                    AllocMode.LFS := rfl
                obtain ⟨hr, _⟩ := got_it_lfs _ _ _ _ _ _ hA hgot
                have hu : (select_policy sbi gt VType.noCheck st).logOfsUnit =
                    sbi.logSegsPerSec := rfl
                rw [hr, GET_SECNO, hu, align_secno]
                exact hxnc
            | ssrOf t =>
                have hA : (select_policy sbi gt (VType.ssrOf t) st).allocMode =
                    AllocMode.SSR := rfl
                simp only [got_it, hA] at hgot
                rw [if_neg (by simp)] at hgot
                rw [Prod.mk.injEq] at hgot
                obtain ⟨_, h2⟩ := hgot
                have hru : (select_policy sbi gt (VType.ssrOf t) st).logOfsUnit = 0 := rfl
                rw [hru, Nat.shiftRight_zero, Nat.shiftLeft_zero] at h2
                cases h2
                exact hxnc

/-- Witness for the amended C2: a state whose BG victim map is empty; the
scan path returns segment 2 whose section is not current. -/
theorem get_victim_not_cursec_witness :
    sbiG.isCursec (GET_SECNO sbiG 2) = false :=
  get_victim_not_cursec sbiG stG GcType.FG VType.noCheck 11 c3Out.1 2
    (fun _ h => by cases h) (by rfl)

/-- C3, confirmed: whenever get_victim_by_default succeeds in LFS mode
(NO_CHECK_TYPE), the returned segno is aligned down to its section boundary
and, on return, every segno in [result, result + 2^s) has its bit set in
victim_segmap[gc_type]. -/
theorem get_victim_lfs_aligned_marks (sbi : Sbi) (st : GcState) (gt : GcType)
    (fuel : Nat) (st' : GcState) (r : Nat)
    (h : get_victim_by_default sbi st gt VType.noCheck fuel = some (st', some r)) :
    r % sbi.segsPerSec = 0 ∧
      ∀ i, i < sbi.segsPerSec → st'.victimMap gt (r + i) = true := by
  have hA : (select_policy sbi gt VType.noCheck st).allocMode = AllocMode.LFS := rfl
  have hu : (select_policy sbi gt VType.noCheck st).logOfsUnit =
      sbi.logSegsPerSec := rfl
  simp only [get_victim_by_default] at h
  have main : ∀ stX m, got_it (select_policy sbi gt VType.noCheck st) gt stX (some m) =
      (st', some r) →
      r % sbi.segsPerSec = 0 ∧
        ∀ i, i < sbi.segsPerSec → st'.victimMap gt (r + i) = true := by
    intro stX m hgot
    obtain ⟨hr, hst⟩ := got_it_lfs _ _ _ _ _ _ hA hgot
    rw [hu] at hr hst
    constructor
    · rw [hr, Sbi.segsPerSec]
      exact align_mod m sbi.logSegsPerSec
    · intro i hi
      rw [hst, ← hr]
      exact setSectionBits_sets stX gt r _ i (by
        simpa [Sbi.segsPerSec] using hi)
  cases hf : (if (select_policy sbi gt VType.noCheck st).allocMode = AllocMode.LFS ∧
      gt = GcType.FG then check_bg_victims sbi st else none) with
  | some pr =>
      rw [hf] at h
      have h2 : some (got_it (select_policy sbi gt VType.noCheck st) gt pr.1
          (some pr.2)) = some (st', some r) := h
      exact main pr.1 pr.2 (Option.some.inj h2)
  | none =>
      rw [hf] at h
      rcases Option.map_eq_some'.mp h with ⟨a, _, hgot⟩
      rcases a with ⟨st1, mo⟩
      cases mo with
      | none =>
          simp only [got_it, Prod.mk.injEq] at hgot
          cases hgot.2
      | some m => exact main st1 m hgot

/-- Witness for C3: the FG greedy scan on the small geometry returns the
section-aligned segment 2 and marks both bits of its section. -/
theorem get_victim_lfs_aligned_marks_witness :
    2 % sbiG.segsPerSec = 0 ∧ c3Out.1.victimMap GcType.FG (2 + 1) = true :=
  ⟨(get_victim_lfs_aligned_marks sbiG stG GcType.FG 11 c3Out.1 2 (by rfl)).1,
    (get_victim_lfs_aligned_marks sbiG stG GcType.FG 11 c3Out.1 2 (by rfl)).2 1
      (by decide)⟩

/-- C5 counterexample: with two segments per section, a BG selection claims
both bits of section {2, 3}, and a subsequent FG fast-path consumption pops
and clears only segment 2's bit: over the pair, victim_segmap[BG] still
holds segment 3's bit, so the map is not restored to its prior (empty)
value. -/
theorem bg_select_fg_consume_cex :
    c5OutB.2 = some 2 ∧ c5OutF.2 = some 2 ∧ stG.victimBG 3 = false ∧
      c5OutF.1.victimBG 3 = true :=
  ⟨rfl, rfl, rfl, rfl⟩

/-- C5 (amended): when segs_per_sec = 1 (so a claim is a single bit) and
victim_segmap[BG] was empty beforehand, a BG selection followed by an FG
fast-path consumption of that victim returns the same segno and restores
victim_segmap[BG] exactly. -/
theorem bg_select_fg_consume_restores (sbi : Sbi) (st : GcState) (f1 f2 : Nat)
    (stB stF : GcState) (rB rF : Nat)
    (hs0 : sbi.logSegsPerSec = 0)
    (hemp : ∀ i, st.victimBG i = false)
    (hB : get_victim_by_default sbi st GcType.BG VType.noCheck f1 = some (stB, some rB))
    (hF : get_victim_by_default sbi stB GcType.FG VType.noCheck f2 =
      some (stF, some rF)) :
    rF = rB ∧ ∀ j, stF.victimBG j = st.victimBG j := by
  have hA : ∀ st0 gt, (select_policy sbi gt VType.noCheck st0).allocMode =
      AllocMode.LFS := fun _ _ => rfl
  have hu : ∀ st0 gt, (select_policy sbi gt VType.noCheck st0).logOfsUnit =
      sbi.logSegsPerSec := fun _ _ => rfl
  -- analyze the BG selection: scan path only
  simp only [get_victim_by_default] at hB
  rw [if_neg (by simp)] at hB
  rcases Option.map_eq_some'.mp hB with ⟨a, ha, hgot⟩
  rcases a with ⟨st1, mo⟩
  cases mo with
  | none =>
      simp only [got_it, Prod.mk.injEq] at hgot
      cases hgot.2
  | some m =>
  obtain ⟨hrB, hstB⟩ := got_it_lfs _ _ _ _ _ _ (hA st GcType.BG) hgot
  rw [hu, hs0, Nat.shiftRight_zero, Nat.shiftLeft_zero] at hrB hstB
  have hinv := scanLoop_inv sbi GcType.BG (select_policy sbi GcType.BG VType.noCheck st)
    f1 st (select_policy sbi GcType.BG VType.noCheck st).offset none
    (get_max_cost sbi (select_policy sbi GcType.BG VType.noCheck st)) 0 st1 (some m) ha
  have hmlt : m < sbi.totalSegs := by
    rcases hinv.2 with hbad | ⟨x, hx, hxlt, _⟩
    · cases hbad
    · cases hx; exact hxlt
  have hst1BG : st1.victimBG = st.victimBG := hinv.1.1
  -- one claimed bit: stB.victimBG j = (j = m) ? true : st.victimBG j
  have hone : (1 : Nat) <<< 0 = 1 := rfl
  have hstBG : ∀ j, stB.victimBG j = if j = m then true else st.victimBG j := by
    intro j
    rw [hstB, hone]
    show (setVictimBit (setSectionBits st1 GcType.BG m 0) GcType.BG (m + 0)).victimBG j =
      _
    simp only [setSectionBits, setVictimBit, updBit, Nat.add_zero, hst1BG]
  -- analyze the FG consumption: fast path pops exactly m
  simp only [get_victim_by_default] at hF
  rw [if_pos ⟨hA stB GcType.FG, by trivial⟩] at hF
  have hfind : find_next_bit stB.victimBG sbi.totalSegs 0 = m := by
    have hle := find_next_bit_le_of_set stB.victimBG sbi.totalSegs 0 m
      (by rw [hstBG]; simp) (Nat.zero_le m) hmlt
    have hlt : find_next_bit stB.victimBG sbi.totalSegs 0 < sbi.totalSegs := by omega
    have hset := (find_next_bit_lt stB.victimBG sbi.totalSegs 0 hlt).1
    rw [hstBG] at hset
    by_contra hne
    rw [if_neg hne] at hset
    rw [hemp] at hset
    exact Bool.false_ne_true hset
  have hcb : check_bg_victims sbi stB = some (clearVictimBG stB m, m) := by
    simp only [check_bg_victims, hfind]
    rw [if_pos hmlt]
  rw [hcb] at hF
  have hF2 : got_it (select_policy sbi GcType.FG VType.noCheck stB) GcType.FG
      (clearVictimBG stB m) (some m) = (stF, some rF) := by
    have h2 : some (got_it (select_policy sbi GcType.FG VType.noCheck stB) GcType.FG
        (clearVictimBG stB m) (some m)) = some (stF, some rF) := hF
    exact Option.some.inj h2
  obtain ⟨hrF, hstF⟩ := got_it_lfs _ _ _ _ _ _ (hA stB GcType.FG) hF2
  rw [hu, hs0, Nat.shiftRight_zero, Nat.shiftLeft_zero] at hrF hstF
  refine ⟨hrF.trans hrB.symm, ?_⟩
  intro j
  rw [hstF, hone]
  show (setVictimBit (setSectionBits (clearVictimBG stB m) GcType.FG m 0)
    GcType.FG (m + 0)).victimBG j = st.victimBG j
  simp only [setSectionBits, setVictimBit, clearVictimBG, updBit]
  by_cases hj : j = m
  · subst hj
    simp [hemp]
  · simp only [hj, if_false, ite_false]
    rw [hstBG]
    simp [hj]

/-- Witness for the amended C5 with one-segment sections: the BG claim of
segment 1 is fully released by the FG fast-path consumption. -/
theorem bg_select_fg_consume_restores_witness :
    (1 : Nat) = 1 ∧ c5wOutF.1.victimBG 1 = stG.victimBG 1 :=
  ⟨(bg_select_fg_consume_restores sbiS0 stG 11 11 c5wOutB.1 c5wOutF.1 1 1 rfl
      (fun _ => rfl) (by rfl) (by rfl)).1,
    (bg_select_fg_consume_restores sbiS0 stG 11 11 c5wOutB.1 c5wOutF.1 1 1 rfl
      (fun _ => rfl) (by rfl) (by rfl)).2 1⟩

theorem ite_lt_min (a b : Nat) : (if a < b then a else b) = min a b := by
  rw [Nat.min_def]
  split <;> split <;> omega

theorem ite_lt_max (a b : Nat) : (if b < a then a else b) = max a b := by
  rw [Nat.max_def]
  split <;> split <;> omega

/-- C1 counterexample: on a one-segment section whose mtime average equals
the (already equal) min_mtime = max_mtime = 5 and with zero valid blocks,
get_cb_cost returns UINT_MAX (the age variable stays at its initializer 0),
not the claimed UINT_MAX - ((100*(100-u)*100)/(100+u)) = UINT_MAX - 10000
that an age factor of 100 would give. -/
theorem get_cb_cost_age_cex :
    (get_cb_cost sbiC1 ⟨5, 5⟩ 0).2 = UINT_MAX ∧
      UINT_MAX ≠ UINT_MAX - ((100 * (100 - cbU sbiC1 0) * 100) / (100 + cbU sbiC1 0)) :=
  ⟨by decide, by decide⟩

/-- C1 (amended): get_cb_cost returns exactly
UINT_MAX - ((100*(100-u)*age)/(100+u)) with u the per-segment-averaged
utilization percent ((valid_blocks >> s) * 100) >> b and with age = 0 (not
100) when the widened max_mtime equals the widened min_mtime, and otherwise
age = 100 - (100*(mtime_avg - min))/(max - min); the returned sit pair is
the widened (min, max).  The side conditions keep the u64/u32/u8 arithmetic
of the C within range (they hold for any real geometry: b = 9 and mtimes
far below 2^57). -/
theorem get_cb_cost_closed_form (sbi : Sbi) (sit : SitMM) (segno : Nat)
    (hb : sbi.logBlocksPerSeg ≤ 25)
    (hvb : sbi.validBlocks segno sbi.logSegsPerSec ≤ sbi.segsPerSec * sbi.blocksPerSeg)
    (hsum : mtimeSum sbi (GET_SECNO sbi segno <<< sbi.logSegsPerSec) < 2 ^ 57) :
    get_cb_cost sbi sit segno =
      (⟨cbMinAfter sbi sit segno, cbMaxAfter sbi sit segno⟩,
        UINT_MAX - ((100 * (100 - cbU sbi segno) * cbAge sbi sit segno) /
          (100 + cbU sbi segno))) := by
  have hU64 : mtimeSum sbi (GET_SECNO sbi segno <<< sbi.logSegsPerSec) % U64 =
      mtimeSum sbi (GET_SECNO sbi segno <<< sbi.logSegsPerSec) :=
    Nat.mod_eq_of_lt (lt_of_lt_of_le hsum (by norm_num [U64]))
  have hvs : sbi.validBlocks segno sbi.logSegsPerSec >>> sbi.logSegsPerSec ≤
      2 ^ sbi.logBlocksPerSeg := by
    have h1 : sbi.validBlocks segno sbi.logSegsPerSec ≤
        2 ^ sbi.logSegsPerSec * 2 ^ sbi.logBlocksPerSeg := by
      simpa [Sbi.segsPerSec, Sbi.blocksPerSeg, Nat.shiftLeft_eq] using hvb
    rw [Nat.shiftRight_eq_div_pow]
    calc sbi.validBlocks segno sbi.logSegsPerSec / 2 ^ sbi.logSegsPerSec ≤
        2 ^ sbi.logSegsPerSec * 2 ^ sbi.logBlocksPerSeg / 2 ^ sbi.logSegsPerSec :=
          Nat.div_le_div_right h1
      _ = 2 ^ sbi.logBlocksPerSeg :=
          Nat.mul_div_cancel_left _ (pow_pos (show 0 < 2 by norm_num) _)
  have hm1 : (sbi.validBlocks segno sbi.logSegsPerSec >>> sbi.logSegsPerSec) * 100 <
      U32 := by
    have h2 : (sbi.validBlocks segno sbi.logSegsPerSec >>> sbi.logSegsPerSec) * 100 ≤
        2 ^ sbi.logBlocksPerSeg * 100 := Nat.mul_le_mul_right 100 hvs
    have h25 : (2 : Nat) ^ sbi.logBlocksPerSeg ≤ 2 ^ 25 :=
      Nat.pow_le_pow_right (by norm_num) hb
    have h3 : (2 : Nat) ^ 25 * 100 < U32 := by norm_num [U32]
    omega
  have hdiv : ((sbi.validBlocks segno sbi.logSegsPerSec >>> sbi.logSegsPerSec) * 100) >>>
      sbi.logBlocksPerSeg ≤ 100 := by
    rw [Nat.shiftRight_eq_div_pow]
    calc (sbi.validBlocks segno sbi.logSegsPerSec >>> sbi.logSegsPerSec) * 100 /
        2 ^ sbi.logBlocksPerSeg ≤
        2 ^ sbi.logBlocksPerSeg * 100 / 2 ^ sbi.logBlocksPerSeg :=
          Nat.div_le_div_right (Nat.mul_le_mul_right 100 hvs)
      _ = 100 := by
          rw [Nat.mul_comm]
          exact Nat.mul_div_cancel 100 (pow_pos (show 0 < 2 by norm_num) _)
  have hu : ((((sbi.validBlocks segno sbi.logSegsPerSec >>> sbi.logSegsPerSec) * 100) %
      U32) >>> sbi.logBlocksPerSeg) % 256 = cbU sbi segno := by
    rw [Nat.mod_eq_of_lt hm1, Nat.mod_eq_of_lt (lt_of_le_of_lt hdiv (by norm_num))]
    rfl
  have hAle : cbMtimeAvg sbi segno ≤
      mtimeSum sbi (GET_SECNO sbi segno <<< sbi.logSegsPerSec) := by
    rw [cbMtimeAvg, Nat.shiftRight_eq_div_pow]
    exact Nat.div_le_self _ _
  have hprod : 100 * (cbMtimeAvg sbi segno - cbMinAfter sbi sit segno) < U64 := by
    have h1 : cbMtimeAvg sbi segno - cbMinAfter sbi sit segno ≤ cbMtimeAvg sbi segno :=
      Nat.sub_le _ _
    have h2 : cbMtimeAvg sbi segno < 2 ^ 57 := lt_of_le_of_lt hAle hsum
    have h3 : (2 : Nat) ^ 57 = 144115188075855872 := by norm_num
    simp only [U64]
    omega
  simp only [get_cb_cost, hU64, ite_lt_min, ite_lt_max]
  rw [Prod.mk.injEq]
  refine ⟨rfl, ?_⟩
  rw [hu]
  have hage : (if max (mtimeSum sbi (GET_SECNO sbi segno <<< sbi.logSegsPerSec) >>>
        sbi.logSegsPerSec) sit.maxMtime ≠
        min (mtimeSum sbi (GET_SECNO sbi segno <<< sbi.logSegsPerSec) >>>
          sbi.logSegsPerSec) sit.minMtime then
        100 - 100 * (mtimeSum sbi (GET_SECNO sbi segno <<< sbi.logSegsPerSec) >>>
          sbi.logSegsPerSec -
          min (mtimeSum sbi (GET_SECNO sbi segno <<< sbi.logSegsPerSec) >>>
            sbi.logSegsPerSec) sit.minMtime) % U64 /
          (max (mtimeSum sbi (GET_SECNO sbi segno <<< sbi.logSegsPerSec) >>>
            sbi.logSegsPerSec) sit.maxMtime -
            min (mtimeSum sbi (GET_SECNO sbi segno <<< sbi.logSegsPerSec) >>>
              sbi.logSegsPerSec) sit.minMtime)
      else 0) = cbAge sbi sit segno := by
    have hmodp : 100 * (cbMtimeAvg sbi segno - cbMinAfter sbi sit segno) % U64 =
        100 * (cbMtimeAvg sbi segno - cbMinAfter sbi sit segno) :=
      Nat.mod_eq_of_lt hprod
    show (if cbMaxAfter sbi sit segno ≠ cbMinAfter sbi sit segno then
        100 - 100 * (cbMtimeAvg sbi segno - cbMinAfter sbi sit segno) % U64 /
          (cbMaxAfter sbi sit segno - cbMinAfter sbi sit segno)
      else 0) = cbAge sbi sit segno
    rw [hmodp, cbAge]
    by_cases hc : cbMaxAfter sbi sit segno = cbMinAfter sbi sit segno
    · rw [if_neg (by simp [hc]), if_pos hc]
    · rw [if_pos hc, if_neg hc]
  rw [hage]

/-- Witness for the amended C1 on the small geometry: two segments per
section with mtimes 5, sit range [0, 10], one valid block. -/
theorem get_cb_cost_closed_form_witness :
    get_cb_cost sbiG ⟨0, 10⟩ 2 =
      (⟨cbMinAfter sbiG ⟨0, 10⟩ 2, cbMaxAfter sbiG ⟨0, 10⟩ 2⟩,
        UINT_MAX - ((100 * (100 - cbU sbiG 2) * cbAge sbiG ⟨0, 10⟩ 2) /
          (100 + cbU sbiG 2))) :=
  get_cb_cost_closed_form sbiG ⟨0, 10⟩ 2 (by decide) (by decide) (by decide)

theorem check_valid_map_cases (sbi : Sbi) (segno off : Nat) :
    check_valid_map sbi segno off = GcRes.OK ∨
      check_valid_map sbi segno off = GcRes.NEXT := by
  unfold check_valid_map
  split
  · exact Or.inl rfl
  · exact Or.inr rfl

theorem check_dnode_cases (env : EvacEnv) (phase off : Nat) :
    (check_dnode env phase off).1 = GcRes.OK ∨
      (check_dnode env phase off).1 = GcRes.NEXT := by
  unfold check_dnode
  cases env.checkDnodeRes phase off
  · exact Or.inr rfl
  · exact Or.inl rfl

theorem gcNodePass_blocked (sbi : Sbi) (env : EvacEnv) (segno : Nat) (initPh : Bool)
    (base : Nat) :
    ∀ k off r, gcNodePass sbi env segno initPh base off k = some r →
      r = GcRes.BLOCKED := by
  intro k
  induction k with
  | zero =>
      intro off r h
      simp [gcNodePass] at h
  | succ k ih =>
      intro off r h
      simp only [gcNodePass] at h
      split at h
      · exact (Option.some.inj h).symm
      · split at h
        · next herr =>
          rcases check_valid_map_cases sbi segno off with hc | hc <;> rw [hc] at herr <;>
            cases herr
        · split at h
          · exact ih _ _ h
          · split at h
            · exact ih _ _ h
            · split at h
              · exact ih _ _ h
              · exact ih _ _ h

theorem gc_node_segment_cases (sbi : Sbi) (env : EvacEnv) (segno : Nat) (gt : GcType) :
    gc_node_segment sbi env segno gt = GcRes.DONE ∨
      gc_node_segment sbi env segno gt = GcRes.BLOCKED := by
  unfold gc_node_segment
  cases h1 : gcNodePass sbi env segno true 0 0 sbi.blocksPerSeg with
  | some r => exact Or.inr (gcNodePass_blocked sbi env segno true 0 _ _ _ h1)
  | none =>
      cases h2 : gcNodePass sbi env segno false sbi.blocksPerSeg 0 sbi.blocksPerSeg with
      | some r => exact Or.inr (gcNodePass_blocked sbi env segno false _ _ _ _ h2)
      | none => exact Or.inl rfl

theorem gcDataPass_fst (sbi : Sbi) (env : EvacEnv) (segno : Nat) (phase : Nat) :
    ∀ k off il, (gcDataPass sbi env segno phase off k il).1 = none ∨
      (gcDataPass sbi env segno phase off k il).1 = some GcRes.BLOCKED := by
  intro k
  induction k with
  | zero => intro off il; exact Or.inl rfl
  | succ k ih =>
      intro off il
      simp only [gcDataPass]
      repeat' split
      all_goals first
        | exact Or.inl rfl
        | exact Or.inr rfl
        | exact ih _ _
        | (rename_i herr
           rcases check_valid_map_cases sbi segno off with hc | hc <;> rw [hc] at herr <;>
             cases herr)
        | (rename_i herr
           rcases check_dnode_cases env phase off with hc | hc <;> rw [hc] at herr <;>
             cases herr)

theorem add_gc_inode_nodup (ino : Nat) (il : List Nat) (h : il.Nodup) :
    (add_gc_inode ino il).Nodup := by
  unfold add_gc_inode
  split
  · exact h
  · next hmem =>
    simp [List.nodup_append, h, hmem]

theorem gcDataPass_nodup (sbi : Sbi) (env : EvacEnv) (segno : Nat) (phase : Nat) :
    ∀ k off il, il.Nodup → ((gcDataPass sbi env segno phase off k il).2).Nodup := by
  intro k
  induction k with
  | zero => intro off il h; exact h
  | succ k ih =>
      intro off il h
      simp only [gcDataPass]
      repeat' split
      all_goals first
        | exact h
        | exact ih _ _ h
        | exact ih _ _ (add_gc_inode_nodup _ _ h)

theorem gcDataPhases_fst (sbi : Sbi) (env : EvacEnv) (segno : Nat) :
    ∀ pl phase il, (gcDataPhases sbi env segno phase pl il).1 = GcRes.DONE ∨
      (gcDataPhases sbi env segno phase pl il).1 = GcRes.BLOCKED := by
  intro pl
  induction pl with
  | zero => intro phase il; exact Or.inl rfl
  | succ pl ih =>
      intro phase il
      simp only [gcDataPhases]
      cases hp : gcDataPass sbi env segno phase 0 sbi.blocksPerSeg il with
      | mk o il2 =>
          cases o with
          | none =>
              show (if phase + 1 < 4 then gcDataPhases sbi env segno (phase + 1) pl il2
                  else (GcRes.DONE, il2)).1 = GcRes.DONE ∨
                (if phase + 1 < 4 then gcDataPhases sbi env segno (phase + 1) pl il2
                  else (GcRes.DONE, il2)).1 = GcRes.BLOCKED
              split
              · exact ih _ _
              · exact Or.inl rfl
          | some r =>
              have h1 := gcDataPass_fst sbi env segno phase sbi.blocksPerSeg 0 il
              rw [hp] at h1
              rcases h1 with h1 | h1
              · cases h1
              · have hr : r = GcRes.BLOCKED := Option.some.inj h1
                show (r, il2).1 = GcRes.DONE ∨ (r, il2).1 = GcRes.BLOCKED
                exact Or.inr hr

theorem gcDataPhases_nodup (sbi : Sbi) (env : EvacEnv) (segno : Nat) :
    ∀ pl phase il, il.Nodup → ((gcDataPhases sbi env segno phase pl il).2).Nodup := by
  intro pl
  induction pl with
  | zero => intro phase il h; exact h
  | succ pl ih =>
      intro phase il h
      simp only [gcDataPhases]
      cases hp : gcDataPass sbi env segno phase 0 sbi.blocksPerSeg il with
      | mk o il2 =>
          have h2 := gcDataPass_nodup sbi env segno phase sbi.blocksPerSeg 0 il h
          rw [hp] at h2
          cases o with
          | none =>
              show ((if phase + 1 < 4 then gcDataPhases sbi env segno (phase + 1) pl il2
                  else (GcRes.DONE, il2)).2).Nodup
              split
              · exact ih _ _ h2
              · exact h2
          | some r => exact h2

theorem gc_data_segment_fst (sbi : Sbi) (env : EvacEnv) (segno : Nat) (gt : GcType)
    (il : List Nat) :
    (gc_data_segment sbi env segno gt il).1 = GcRes.DONE ∨
      (gc_data_segment sbi env segno gt il).1 = GcRes.BLOCKED :=
  gcDataPhases_fst sbi env segno 4 0 il

theorem gc_data_segment_nodup (sbi : Sbi) (env : EvacEnv) (segno : Nat) (gt : GcType)
    (il : List Nat) (h : il.Nodup) :
    ((gc_data_segment sbi env segno gt il).2).Nodup :=
  gcDataPhases_nodup sbi env segno 4 0 il h

theorem do_garbage_collect_error_only (sbi : Sbi) (denv : DgcEnv) (segno : Nat)
    (il : List Nat) (gt : GcType)
    (h : (do_garbage_collect sbi denv segno il gt).1 = GcRes.ERROR) :
    denv.sumPage segno = none := by
  unfold do_garbage_collect at h
  cases hs : denv.sumPage segno with
  | none => rfl
  | some t =>
      rw [hs] at h
      cases t with
      | NODE =>
          rcases gc_node_segment_cases sbi denv.evac segno gt with h2 | h2 <;>
            simp [h2] at h
      | DATA =>
          rcases gc_data_segment_fst sbi denv.evac segno gt il with h2 | h2 <;>
            rw [h2] at h <;> cases h

theorem do_garbage_collect_nodup (sbi : Sbi) (denv : DgcEnv) (segno : Nat)
    (il : List Nat) (gt : GcType) (h : il.Nodup) :
    ((do_garbage_collect sbi denv segno il gt).2).Nodup := by
  unfold do_garbage_collect
  cases denv.sumPage segno with
  | none => exact h
  | some t =>
      cases t with
      | NODE => exact h
      | DATA => exact gc_data_segment_nodup sbi denv.evac segno gt il h

/-- C10, confirmed: check_valid_map only ever returns GC_OK or GC_NEXT, so
the GC_ERROR branches guarding it are unreachable: gc_node_segment and
gc_data_segment can only return GC_DONE or GC_BLOCKED, and
do_garbage_collect returns GC_ERROR exactly when fetching the victim's
summary page fails. -/
theorem gc_error_only_from_summary (sbi : Sbi) (denv : DgcEnv) :
    (∀ segno off, check_valid_map sbi segno off = GcRes.OK ∨
      check_valid_map sbi segno off = GcRes.NEXT) ∧
    (∀ env segno gt, gc_node_segment sbi env segno gt = GcRes.DONE ∨
      gc_node_segment sbi env segno gt = GcRes.BLOCKED) ∧
    (∀ env segno gt il, (gc_data_segment sbi env segno gt il).1 = GcRes.DONE ∨
      (gc_data_segment sbi env segno gt il).1 = GcRes.BLOCKED) ∧
    (∀ segno il gt, (do_garbage_collect sbi denv segno il gt).1 = GcRes.ERROR →
      denv.sumPage segno = none) :=
  ⟨fun segno off => check_valid_map_cases sbi segno off,
    fun env segno gt => gc_node_segment_cases sbi env segno gt,
    fun env segno gt il => gc_data_segment_fst sbi env segno gt il,
    fun segno il gt h => do_garbage_collect_error_only sbi denv segno il gt h⟩

/-- Witness for C10: with a summary fetch that fails, do_garbage_collect
returns GC_ERROR and the theorem pins the failure on the summary page. -/
theorem gc_error_only_from_summary_witness : dgcEnvW.sumPage 0 = none :=
  (gc_error_only_from_summary sbiG dgcEnvW).2.2.2 0 [] GcType.BG (by rfl)

theorem gcSegsLoop_nodup (sbi : Sbi) (env : FsEnv) (segno : Nat) (gt : GcType) :
    ∀ k c i il cur, il.Nodup →
      ((gcSegsLoop sbi env segno gt c i k il cur).il).Nodup := by
  intro k
  induction k with
  | zero => intro c i il cur h; exact h
  | succ k ih =>
      intro c i il cur h
      simp only [gcSegsLoop]
      split
      · exact ih _ _ _ _ (do_garbage_collect_nodup sbi (env.dgc c) (segno + i) il gt h)
      · exact do_garbage_collect_nodup sbi (env.dgc c) (segno + i) il gt h

theorem gcWhileStep_inv (sbi : Sbi) (env : FsEnv) (nGC oldFree t c : Nat)
    (gt : GcType) (gst : GcState) (il : List Nat) (status : GcRes) (nfree : Nat) :
    whileStepInv il (gcWhileStep sbi env nGC oldFree t c gt gst il status nfree) := by
  simp only [gcWhileStep]
  repeat' split
  all_goals first
    | trivial
    | exact fun h => h
    | exact fun h => gcSegsLoop_nodup sbi env _ _ _ _ _ _ _ h

theorem gcWhile_nodup (sbi : Sbi) (env : FsEnv) (nGC oldFree : Nat) :
    ∀ fuel t c gt gst il status nfree w,
      gcWhile sbi env nGC oldFree fuel t c gt gst il status nfree = some w →
      il.Nodup → w.il.Nodup := by
  intro fuel
  induction fuel with
  | zero =>
      intro t c gt gst il status nfree w h hil
      exact Option.noConfusion h
  | succ fuel ih =>
      intro t c gt gst il status nfree w h hil
      simp only [gcWhile] at h
      have hstep := gcWhileStep_inv sbi env nGC oldFree t c gt gst il status nfree
      cases hs : gcWhileStep sbi env nGC oldFree t c gt gst il status nfree with
      | stop w2 =>
          rw [hs] at h hstep
          have h2 : some w2 = some w := h
          cases Option.some.inj h2
          exact hstep hil
      | fuelOut =>
          rw [hs] at h
          exact Option.noConfusion h
      | next t2 c2 gt2 gst2 il2 status2 nfree2 =>
          rw [hs] at h hstep
          have h2 : gcWhile sbi env nGC oldFree fuel t2 c2 gt2 gst2 il2 status2 nfree2 =
              some w := h
          exact ih t2 c2 gt2 gst2 il2 status2 nfree2 w h2 (hstep hil)

theorem gcMoreStep_inv (sbi : Sbi) (env : FsEnv) (nGC wfuel t c : Nat) (gt : GcType)
    (gst : GcState) (il : List Nat) :
    moreStepInv il (gcMoreStep sbi env nGC wfuel t c gt gst il) := by
  simp only [gcMoreStep]
  cases hw : gcWhile sbi env nGC
      (if env.notEnough t = true then env.reservedSections else env.freeSections t)
      wfuel (t + 1) c gt gst il GcRes.NONE 0 with
  | none => trivial
  | some w =>
      have hw2 := gcWhile_nodup sbi env nGC _ wfuel (t + 1) c gt gst il GcRes.NONE 0 w hw
      show moreStepInv il (if env.notEnough w.t = true ∨ w.status = GcRes.BLOCKED then
          (if w.nfree ≠ 0 then MoreStep.again (w.t + 1) w.c w.gcType w.gst w.il
            else MoreStep.out (w.status, w.gst, w.il))
        else MoreStep.out (w.status, w.gst, w.il))
      repeat' split
      all_goals exact fun h => hw2 h

theorem gcMore_nodup (sbi : Sbi) (env : FsEnv) (nGC wfuel : Nat) :
    ∀ gfuel t c gt gst il r,
      gcMore sbi env nGC wfuel gfuel t c gt gst il = some r →
      il.Nodup → r.2.2.Nodup := by
  intro gfuel
  induction gfuel with
  | zero =>
      intro t c gt gst il r h hil
      exact Option.noConfusion h
  | succ gfuel ih =>
      intro t c gt gst il r h hil
      simp only [gcMore] at h
      have hstep := gcMoreStep_inv sbi env nGC wfuel t c gt gst il
      cases hs : gcMoreStep sbi env nGC wfuel t c gt gst il with
      | out r2 =>
          rw [hs] at h hstep
          have h2 : some r2 = some r := h
          cases Option.some.inj h2
          exact hstep hil
      | fuelOut =>
          rw [hs] at h
          exact Option.noConfusion h
      | again t2 c2 gt2 gst2 il2 =>
          rw [hs] at h hstep
          have h2 : gcMore sbi env nGC wfuel gfuel t2 c2 gt2 gst2 il2 = some r := h
          exact ih t2 c2 gt2 gst2 il2 r h2 (hstep hil)

/-- C6, confirmed: whenever f2fs_gc returns (with any status), the inode pin
list surviving put_gc_inode is empty and the inodes released by put_gc_inode
are pairwise distinct, so every pinned inode is released exactly once. -/
theorem f2fs_gc_pin_set_empty (sbi : Sbi) (env : FsEnv) (gst : GcState)
    (nGC gfuel wfuel : Nat) (out : GcOutcome)
    (h : f2fs_gc sbi env gst nGC gfuel wfuel = some out) :
    out.ilistFinal = [] ∧ out.released.Nodup := by
  unfold f2fs_gc at h
  rcases Option.map_eq_some'.mp h with ⟨r, hr, hout⟩
  have hn : r.2.2.Nodup := gcMore_nodup sbi env nGC wfuel gfuel 0 0 GcType.BG gst [] r
    hr List.nodup_nil
  rw [← hout]
  exact ⟨rfl, hn⟩

/-- Witness for C6: f2fs_gc on an inactive filesystem returns GC_NONE with
an empty pin list and no duplicated releases. -/
theorem f2fs_gc_pin_set_empty_witness :
    c6Out.ilistFinal = [] ∧ c6Out.released.Nodup :=
  f2fs_gc_pin_set_empty sbiG fsEnvW stG 1 1 1 c6Out (by rfl)

end F2fsGc
